import Mathlib

/-!
Verification of the Ishido game engine (TypeScript source, final snapshot).

The definitions below are a shallow embedding of the source:
* the 12×8 board is a pair of total functions over coordinates (the source
  uses dense arrays indexed by `x ∈ [0,12)`, `y ∈ [0,8)`; all accesses stay
  inside those bounds),
* `Math.floor(Math.random() * max)` is modelled by an explicit stream
  `g : Nat → Nat` of random draws together with a running index `k`;
  draw number `k` with bound `max` yields `g k % max ∈ [0, max)`,
* `Array.prototype.pop` is `getLast?` plus `dropLast`,
* TypeScript's truthiness test on `table[i]` (`undefined` and `0` are falsy,
  all table entries are positive) is modelled by `List.getD _ 0` followed by
  adding the result, which is a no-op exactly when the index is out of range.
-/

/-- Grid width, `BOARD_WIDTH` in the source. -/
def BOARD_WIDTH : Nat := 12

/-- Grid height, `BOARD_HEIGHT` in the source. -/
def BOARD_HEIGHT : Nat := 8

/-- Pixel width of a tile, `TILE_WIDTH` in the source. -/
def TILE_WIDTH : Nat := 56

/-- Pixel height of a tile, `TILE_HEIGHT` in the source. -/
def TILE_HEIGHT : Nat := 66

/-- A 2D position, `Position2D` in the source (also used for raw pixel
coordinates of mouse clicks). -/
structure Position2D where
  x : Nat
  y : Nat
deriving DecidableEq, Repr

/-- A stone, `Stone` in the source (the constant `type: 'stone'` tag is
dropped).  The source's shallow `equals` helper compares the `type`, `color`
and `symbol` keys, which coincides with structural equality here. -/
structure Stone where
  color : Nat
  symbol : Nat
deriving DecidableEq, Repr

/-- A board cell, `Tile = EmptyTile | Stone` in the source. -/
inductive Tile where
  | empty : Tile
  | stone : Stone → Tile
deriving DecidableEq, Repr

/-- The board, `Board` in the source: decorative background indices, the
tile grid, and the currently drawn next stone (absent when exhausted). -/
structure Board where
  background : Nat → Nat → Nat
  tiles : Nat → Nat → Tile
  nextStone : Option Stone

/-- A pixel rectangle, `Rect2D` in the source. -/
structure Rect2D where
  left : Nat
  top : Nat
  right : Nat
  bottom : Nat
deriving DecidableEq, Repr

/-- The assets record, reduced to the only rules-relevant field: the
"New" button hit region (the images are external drawables). -/
structure Assets where
  newButton : Rect2D
deriving DecidableEq, Repr

/-- The session state, `Game` in the source. -/
structure Game where
  board : Board
  stoneStack : List Stone
  validPositions : List Position2D
  score : Nat
  fourWays : Nat
  showHint : Bool
  assets : Assets

/-- Outcome of matching a candidate stone against one neighbor tile,
`MatchResult = NotMatching | Match` in the source. -/
inductive MatchResult where
  | notMatching : MatchResult
  | matchRes (colorMatches : Nat) (symbolMatches : Nat) : MatchResult
deriving DecidableEq, Repr

/-- The match evaluator, `match` in the source (`match` is a reserved word
in Lean).  An empty neighbor yields `Match(0,0)`; an occupied neighbor
sharing color and/or symbol yields `Match` with 0/1 indicator counts; an
occupied neighbor sharing neither yields `NotMatching`. -/
def matchStone (s1 : Stone) (s2 : Tile) : MatchResult :=
  match s2 with
  | Tile.empty => MatchResult.matchRes 0 0
  | Tile.stone st =>
    let colorMatch := s1.color == st.color
    let symbolMatch := s1.symbol == st.symbol
    if colorMatch || symbolMatch then
      MatchResult.matchRes (if colorMatch then 1 else 0) (if symbolMatch then 1 else 0)
    else
      MatchResult.notMatching

/-- The predicate `isNonEmptyMatch` from the source: a `Match` with at least
one positive indicator. -/
def isNonEmptyMatch (m : MatchResult) : Bool :=
  match m with
  | MatchResult.notMatching => false
  | MatchResult.matchRes c s => 0 < c || 0 < s

/-- Neighbor match results, `getMatchResults` in the source: for an empty
cell (and a present next stone), the match outcomes against the existing
left, right, top and bottom neighbors, in that order; otherwise the empty
list. -/
def getMatchResults (board : Board) (position : Position2D) : List MatchResult :=
  match board.nextStone with
  | none => []
  | some nextStone =>
    if board.tiles position.x position.y = Tile.empty then
      (if 0 < position.x then [matchStone nextStone (board.tiles (position.x - 1) position.y)] else []) ++
      (if position.x < BOARD_WIDTH - 1 then [matchStone nextStone (board.tiles (position.x + 1) position.y)] else []) ++
      (if 0 < position.y then [matchStone nextStone (board.tiles position.x (position.y - 1))] else []) ++
      (if position.y < BOARD_HEIGHT - 1 then [matchStone nextStone (board.tiles position.x (position.y + 1))] else [])
    else []

/-- One step of the source's `sumMatches` reducer: add a `Match`'s indicator
counts to the running `(colorMatches, symbolMatches)` accumulator.  The
source only ever applies it to `Match` values (the list was filtered with
`isNonEmptyMatch`); `NotMatching` is mapped to the identity. -/
def addMatch (sum : Nat × Nat) (current : MatchResult) : Nat × Nat :=
  match current with
  | MatchResult.notMatching => sum
  | MatchResult.matchRes c s => (sum.1 + c, sum.2 + s)

/-- The per-cell body of `getValidPositions`'s double loop: reject on any
`NotMatching` neighbor, require at least one non-empty match, and check the
aggregate `(colorMatches, symbolMatches)` against the `switch` on the number
of non-empty matches. -/
def validAt (board : Board) (pos : Position2D) : Bool :=
  let matchResults := getMatchResults board pos
  let isMatching := !(matchResults.any (fun m => m == MatchResult.notMatching))
  if isMatching then
    let matching := matchResults.filter isNonEmptyMatch
    if 0 < matching.length then
      let matchResult := matching.foldl addMatch (0, 0)
      match matching.length with
      | 1 => true
      | 2 => matchResult.2 == 1 && matchResult.1 == 1
      | 3 => (matchResult.2 == 1 && matchResult.1 == 2) || (matchResult.2 == 2 && matchResult.1 == 1)
      | 4 => matchResult.2 == 2 && matchResult.1 == 2
      | _ => false
    else false
  else false

/-- All board positions in the traversal order of the source's loops
(`x` outer from 0 to 11, `y` inner from 0 to 7). -/
def allPositions : List Position2D :=
  (List.range BOARD_WIDTH).flatMap (fun x => (List.range BOARD_HEIGHT).map (fun y => ⟨x, y⟩))

/-- The valid-move finder, `getValidPositions` in the source: the positions
of the grid passing `validAt`, in traversal order; empty when there is no
next stone. -/
def getValidPositions (board : Board) : List Position2D :=
  match board.nextStone with
  | none => []
  | some _ => allPositions.filter (validAt board)

/-- The border test, `isBeyond` in the source: the position lies on the
outer ring of the board. -/
def isBeyond (position : Position2D) : Bool :=
  position.y == 0 || position.y == BOARD_HEIGHT - 1 || position.x == 0 || position.x == BOARD_WIDTH - 1

/-- The anchor-cell test, `isInitialStonePosition` in the source: the four
corners, the cell `(6,4)` and the cell `(5,3)`. -/
def isInitialStonePosition (position : Position2D) : Bool :=
  ((position.x == 0 || position.x == BOARD_WIDTH - 1) && (position.y == 0 || position.y == BOARD_HEIGHT - 1)) ||
  (position.x == BOARD_WIDTH / 2 && position.y == BOARD_HEIGHT / 2) ||
  (position.x == BOARD_WIDTH / 2 - 1 && position.y == BOARD_HEIGHT / 2 - 1)

/-- The four-way bonus table, `fourwayBonuses` in the source. -/
def fourwayBonuses : List Nat := [25, 50, 100, 200, 400, 600, 800, 1000, 5000, 10000, 25000, 50000]

/-- The end-of-game bonus table, `stonesLeftBonus` in the source. -/
def stonesLeftBonus : List Nat := [1000, 500, 100]

/-- One random draw, `randomInt(max)` in the source: draw number `k` from
the stream `g`, reduced into `[0, max)`. -/
def randomInt (g : Nat → Nat) (k : Nat) (max : Nat) : Nat := g k % max

/-- Loop body of `generatePlacedStones`: while `colors` is non-empty, pick a
random remaining color and a random remaining symbol (two draws), pair them,
and remove both values from their pools.  The loop runs at most
`colors.length` times since the picked color is removed each round; `fuel`
is initialised to that length, so it is never exhausted early.  Returns the
stones together with the next unused stream index. -/
def generatePlacedStonesGo (g : Nat → Nat) : Nat → Nat → List Nat → List Nat → List Stone → List Stone × Nat
  | 0, k, _, _, acc => (acc, k)
  | fuel + 1, k, colors, symbols, acc =>
    match colors with
    | [] => (acc, k)
    | c :: cs =>
      let maxIndex := (c :: cs).length
      let color := (c :: cs).getD (randomInt g k maxIndex) 0
      let symbol := symbols.getD (randomInt g (k + 1) maxIndex) 0
      let stone : Stone := ⟨color, symbol⟩
      generatePlacedStonesGo g fuel (k + 2) ((c :: cs).filter (fun v => v != color))
        (symbols.filter (fun v => v != symbol)) (acc ++ [stone])

/-- The anchor generator, `generatePlacedStones` in the source, started on
the full pools `[0..5]` of colors and symbols. -/
def generatePlacedStones (g : Nat → Nat) (k : Nat) : List Stone × Nat :=
  generatePlacedStonesGo g 6 k [0, 1, 2, 3, 4, 5] [0, 1, 2, 3, 4, 5] []

/-- In-place swap of two list entries, the body of the source's
Fisher-Yates loop (`temp = a[i]; a[i] = a[j]; a[j] = temp`). -/
def swapList (l : List Stone) (i j : Nat) : List Stone :=
  (l.set i (l.getD j ⟨0, 0⟩)).set j (l.getD i ⟨0, 0⟩)

/-- The source's `shuffle` loop: for `i` from `n-1` down to 1, swap entry
`i` with entry `randomInt(i) ∈ [0, i)` (one draw per iteration). -/
def shuffleGo (g : Nat → Nat) : Nat → Nat → List Stone → List Stone
  | _, 0, l => l
  | k, i + 1, l => shuffleGo g (k + 1) i (swapList l (i + 1) (randomInt g k (i + 1)))

/-- Fisher-Yates shuffle, `shuffle` in the source. -/
def shuffle (g : Nat → Nat) (k : Nat) (l : List Stone) : List Stone :=
  shuffleGo g k (l.length - 1) l

/-- The 72-stone deck enumeration order of `newGame`'s triple loop:
two passes over all colors 0..5, each over all symbols 0..5. -/
def deckEnum : List Stone :=
  (List.range 2).flatMap (fun _ =>
    (List.range 6).flatMap (fun color => (List.range 6).map (fun symbol => ⟨color, symbol⟩)))

/-- One step of `newGame`'s stack-building loop: remove every copy of the
enumerated stone from the not-yet-seen anchor pool (the source filters with
its shallow `equals`); push the stone onto the stack exactly when nothing
was removed. -/
def buildStackStep (st : List Stone × List Stone) (stone : Stone) : List Stone × List Stone :=
  let previousPlacedStones := st.1
  let placedStones := previousPlacedStones.filter (fun s => s != stone)
  if previousPlacedStones.length = placedStones.length then
    (placedStones, st.2 ++ [stone])
  else
    (placedStones, st.2)

/-- The draw stack before shuffling: the enumeration with one copy of each
anchor stone removed. -/
def buildStack (placed : List Stone) : List Stone :=
  (deckEnum.foldl buildStackStep (placed, [])).2

/-- Point update of the tile grid (`tiles[x][y] = t` in the source). -/
def setTile (tiles : Nat → Nat → Tile) (p : Position2D) (t : Tile) : Nat → Nat → Tile :=
  fun x y => if x = p.x ∧ y = p.y then t else tiles x y

/-- The board-filling loop of `newGame`: every cell is written, anchor cells
receive `initialStones.pop()` (the last not-yet-placed anchor stone), the
rest become empty. -/
def buildTilesGo : List Position2D → (Nat → Nat → Tile) → List Stone → (Nat → Nat → Tile) × List Stone
  | [], tiles, stones => (tiles, stones)
  | p :: ps, tiles, stones =>
    if isInitialStonePosition p then
      buildTilesGo ps
        (setTile tiles p (match stones.getLast? with | some s => Tile.stone s | none => Tile.empty))
        stones.dropLast
    else
      buildTilesGo ps (setTile tiles p Tile.empty) stones

/-- The session constructor, `newGame` in the source.  Random draws, in
stream order: 12 draws for the anchors, then one background index per cell
in traversal order (96 draws), then 65 draws for the shuffle. -/
def newGame (g : Nat → Nat) (k : Nat) (assets : Assets) : Game :=
  let pr := generatePlacedStones g k
  let placedStones := pr.1
  let k1 := pr.2
  let background : Nat → Nat → Nat := fun x y => randomInt g (k1 + (x * BOARD_HEIGHT + y)) 4
  let tiles := (buildTilesGo allPositions (fun _ _ => Tile.empty) placedStones).1
  let stoneStack0 := buildStack placedStones
  let shuffled := shuffle g (k1 + BOARD_WIDTH * BOARD_HEIGHT) stoneStack0
  let nextStone := shuffled.getLast?
  let stoneStack := shuffled.dropLast
  let board : Board := ⟨background, tiles, nextStone⟩
  { board := board, stoneStack := stoneStack, score := 0, fourWays := 0, showHint := false,
    validPositions := getValidPositions board, assets := assets }

/-- The game-over condition tested at source line 477:
`!game.board.nextStone || game.stoneStack.length === 0`. -/
def isGameOver (game : Game) : Bool :=
  game.board.nextStone.isNone || game.stoneStack.length == 0

/-- Hit test of the "New" button region (`position.x >= left && ... `). -/
def inRect (r : Rect2D) (p : Position2D) : Bool :=
  r.left ≤ p.x && p.x ≤ r.right && r.top ≤ p.y && p.y ≤ r.bottom

/-- The click handler `doMove` from the source, acting on a session value:
1. convert the click's pixel position to a board position;
2. if a next stone exists and the board position is cached as valid:
   score the move (interior cells only), place the stone, pop a new next
   stone, clear the hint flag and recompute the cached valid positions;
3. if the next stone is absent or the stack is empty, add the
   `stonesLeftBonus` entry for the current stack length (a no-op when the
   index is out of range, mirroring the source's truthiness test);
4. if the click hits the "New" button, replace board, stack and valid
   positions by a fresh `newGame` and reset score, four-ways and hint.
The stream `g` with index `k` supplies randomness for step 4 only. -/
def doMove (g : Nat → Nat) (k : Nat) (game : Game) (position : Position2D) : Game :=
  let boardPosition : Position2D := ⟨position.x / TILE_WIDTH, position.y / TILE_HEIGHT⟩
  let isValidPosition := boardPosition ∈ game.validPositions
  let game1 :=
    match game.board.nextStone with
    | none => game
    | some nextStone =>
      if isValidPosition then
        let matchList := (getMatchResults game.board boardPosition).filter isNonEmptyMatch
        let scored :=
          if !(isBeyond boardPosition) then
            match matchList.length with
            | 1 => (game.score + 1, game.fourWays)
            | 2 => (game.score + 2, game.fourWays)
            | 3 => (game.score + 4, game.fourWays)
            | 4 =>
              let fourWays := game.fourWays + 1
              (game.score + 8 + fourwayBonuses.getD (fourWays - 1) 0, fourWays)
            | _ => (game.score, game.fourWays)
          else (game.score, game.fourWays)
        let board' : Board :=
          { game.board with
            tiles := setTile game.board.tiles boardPosition (Tile.stone nextStone),
            nextStone := game.stoneStack.getLast? }
        { game with
          board := board',
          stoneStack := game.stoneStack.dropLast,
          score := scored.1,
          fourWays := scored.2,
          showHint := false,
          validPositions := getValidPositions board' }
      else game
  let game2 :=
    if isGameOver game1 then
      { game1 with score := game1.score + stonesLeftBonus.getD game1.stoneStack.length 0 }
    else game1
  if inRect game.assets.newButton position then
    let fresh := newGame g k game.assets
    { game2 with
      board := fresh.board,
      stoneStack := fresh.stoneStack,
      validPositions := fresh.validPositions,
      fourWays := 0,
      score := 0,
      showHint := false }
  else game2

/-- The hint toggle (`game.showHint = b` assignments in the source; the
deferred timer sets it to `true`, a successful move sets it to `false`). -/
def setHint (game : Game) (b : Bool) : Game :=
  { game with showHint := b }

/-- Session states reachable through the source's operations: a fresh
`newGame`, any click handled by `doMove`, and the hint toggle. -/
inductive Reachable : Game → Prop
  | init (g : Nat → Nat) (k : Nat) (assets : Assets) : Reachable (newGame g k assets)
  | move (g : Nat → Nat) (k : Nat) (game : Game) (p : Position2D) :
      Reachable game → Reachable (doMove g k game p)
  | hint (game : Game) (b : Bool) : Reachable game → Reachable (setHint game b)

/-- The in-bounds orthogonal neighbor positions of a cell, in the source's
gathering order (left, right, top, bottom); edge guards as in
`getMatchResults`. -/
def neighborPositions (p : Position2D) : List Position2D :=
  (if 0 < p.x then [⟨p.x - 1, p.y⟩] else []) ++
  (if p.x < BOARD_WIDTH - 1 then [⟨p.x + 1, p.y⟩] else []) ++
  (if 0 < p.y then [⟨p.x, p.y - 1⟩] else []) ++
  (if p.y < BOARD_HEIGHT - 1 then [⟨p.x, p.y + 1⟩] else [])

/-- The tiles on the in-bounds orthogonal neighbors of `p`. -/
def neighborTiles (board : Board) (p : Position2D) : List Tile :=
  (neighborPositions p).map (fun q => board.tiles q.x q.y)

/-- Modelled from the spec (§4.2): a neighbor tile conflicting with the
candidate — occupied and sharing neither color nor symbol. -/
def isConflict (s : Stone) (t : Tile) : Bool :=
  match t with
  | Tile.empty => false
  | Tile.stone st => !(s.color == st.color) && !(s.symbol == st.symbol)

/-- Modelled from the spec (§4.2/§4.3): an occupied neighbor sharing at
least one attribute with the candidate (a `Partial` neighbor). -/
def sharesAttribute (s : Stone) (t : Tile) : Bool :=
  match t with
  | Tile.empty => false
  | Tile.stone st => s.color == st.color || s.symbol == st.symbol

/-- Modelled from the spec: an occupied neighbor sharing the color. -/
def sharesColor (s : Stone) (t : Tile) : Bool :=
  match t with
  | Tile.empty => false
  | Tile.stone st => s.color == st.color

/-- Modelled from the spec: an occupied neighbor sharing the symbol. -/
def sharesSymbol (s : Stone) (t : Tile) : Bool :=
  match t with
  | Tile.empty => false
  | Tile.stone st => s.symbol == st.symbol

/-- Modelled from the spec (§4.3): the number `n` of occupied neighbors of
`p` sharing at least one attribute with the candidate `s`. -/
def specN (board : Board) (s : Stone) (p : Position2D) : Nat :=
  (neighborTiles board p).countP (sharesAttribute s)

/-- Modelled from the spec (§4.3): the aggregate color-match count `C`. -/
def specC (board : Board) (s : Stone) (p : Position2D) : Nat :=
  (neighborTiles board p).countP (sharesColor s)

/-- Modelled from the spec (§4.3): the aggregate symbol-match count `S`. -/
def specS (board : Board) (s : Stone) (p : Position2D) : Nat :=
  (neighborTiles board p).countP (sharesSymbol s)

/-- Modelled from the spec (§4.3): the validity table on `n` and the
aggregate counts `(C, S)` — `n=1` always valid, `n=2` iff `S=1 ∧ C=1`,
`n=3` iff `(S=1 ∧ C=2) ∨ (S=2 ∧ C=1)`, `n=4` iff `S=2 ∧ C=2`, `n=0` and
anything else never valid. -/
def specTable (n c s : Nat) : Prop :=
  if n = 1 then True
  else if n = 2 then s = 1 ∧ c = 1
  else if n = 3 then (s = 1 ∧ c = 2) ∨ (s = 2 ∧ c = 1)
  else if n = 4 then s = 2 ∧ c = 2
  else False

instance (n c s : Nat) : Decidable (specTable n c s) := by
  unfold specTable
  infer_instance

/-- Modelled from the spec (§4.3 and claim C1): the candidate stone `s` may
be placed on cell `p` — `p` is an empty cell of the 12×8 grid, no occupied
orthogonal neighbor conflicts, at least one occupied neighbor shares an
attribute, and `(n, C, S)` satisfy the validity table. -/
def specValidPlacement (board : Board) (s : Stone) (p : Position2D) : Prop :=
  p.x < BOARD_WIDTH ∧ p.y < BOARD_HEIGHT ∧
  board.tiles p.x p.y = Tile.empty ∧
  (∀ q ∈ neighborPositions p, isConflict s (board.tiles q.x q.y) = false) ∧
  1 ≤ specN board s p ∧
  specTable (specN board s p) (specC board s p) (specS board s p)

instance (board : Board) (s : Stone) (p : Position2D) :
    Decidable (specValidPlacement board s p) := by
  unfold specValidPlacement
  infer_instance

/-- Modelled from the spec (§4.4): the per-move score for an interior
placement with `n` collected non-empty matches. -/
def specBaseScore (n : Nat) : Nat :=
  match n with
  | 1 => 1
  | 2 => 2
  | 3 => 4
  | 4 => 8
  | _ => 0

/-- Color component read off a match result (0 for `NotMatching`). -/
def mrColor : MatchResult → Nat
  | MatchResult.notMatching => 0
  | MatchResult.matchRes c _ => c

/-- Symbol component read off a match result (0 for `NotMatching`). -/
def mrSymbol : MatchResult → Nat
  | MatchResult.notMatching => 0
  | MatchResult.matchRes _ s => s

/-- The tiles sitting on the six anchor cells of a session's board, in
traversal order of the cells. -/
def anchorTiles (game : Game) : List Tile :=
  (allPositions.filter isInitialStonePosition).map (fun p => game.board.tiles p.x p.y)

/-- A fixed random stream used to instantiate universally quantified
theorems at a concrete input. -/
def rng0 : Nat → Nat := fun _ => 0

/-- A concrete button geometry (right of the 672-pixel-wide board, as the
source's layout computes it for any sane text width). -/
def assets0 : Assets := ⟨⟨700, 450, 760, 482⟩⟩

/-- A small fixed board: one stone in the interior cell (5,4), and a next
stone sharing its color. -/
def demoBoard : Board :=
  { background := fun _ _ => 0,
    tiles := fun x y => if x = 5 ∧ y = 4 then Tile.stone ⟨0, 0⟩ else Tile.empty,
    nextStone := some ⟨0, 1⟩ }

/-- A session over `demoBoard` with two stones left to draw. -/
def demoGame : Game :=
  { board := demoBoard, stoneStack := [⟨3, 3⟩, ⟨4, 4⟩],
    validPositions := getValidPositions demoBoard,
    score := 0, fourWays := 0, showHint := false, assets := assets0 }

/-- A fixed board with a stone on the border cell (1,0) and a next stone
sharing its color. -/
def borderBoard : Board :=
  { background := fun _ _ => 0,
    tiles := fun x y => if x = 1 ∧ y = 0 then Tile.stone ⟨0, 0⟩ else Tile.empty,
    nextStone := some ⟨0, 1⟩ }

/-- A session over `borderBoard` with two stones left to draw. -/
def borderGame : Game :=
  { board := borderBoard, stoneStack := [⟨3, 3⟩, ⟨4, 4⟩],
    validPositions := getValidPositions borderBoard,
    score := 0, fourWays := 0, showHint := false, assets := assets0 }

/-- A session whose draw stack is already empty while a next stone still
exists — the state every play passes through just before its final
placement. -/
def emptyStackGame : Game :=
  { board := demoBoard, stoneStack := [],
    validPositions := getValidPositions demoBoard,
    score := 0, fourWays := 0, showHint := false, assets := assets0 }

/-- A session with one stone left in the stack and a valid next placement
available. -/
def lastDrawGame : Game :=
  { board := demoBoard, stoneStack := [⟨3, 3⟩],
    validPositions := getValidPositions demoBoard,
    score := 0, fourWays := 0, showHint := false, assets := assets0 }

/-- A fully exhausted session: no next stone and an empty stack. -/
def exhaustedBoard : Board :=
  { background := fun _ _ => 0,
    tiles := fun x y => if x = 5 ∧ y = 4 then Tile.stone ⟨0, 0⟩ else Tile.empty,
    nextStone := none }

/-- A terminal session over `exhaustedBoard`. -/
def exhaustedGame : Game :=
  { board := exhaustedBoard, stoneStack := [],
    validPositions := getValidPositions exhaustedBoard,
    score := 7, fourWays := 2, showHint := false, assets := assets0 }

theorem isNonEmptyMatch_matchStone (s : Stone) (t : Tile) :
    isNonEmptyMatch (matchStone s t) = sharesAttribute s t := by
  cases t with
  | empty => rfl
  | stone st =>
    by_cases hc : s.color = st.color <;> by_cases hs : s.symbol = st.symbol <;>
      simp [matchStone, sharesAttribute, isNonEmptyMatch, hc, hs]

theorem matchStone_beq_notMatching (s : Stone) (t : Tile) :
    (matchStone s t == MatchResult.notMatching) = isConflict s t := by
  cases t with
  | empty => rfl
  | stone st =>
    by_cases hc : s.color = st.color <;> by_cases hs : s.symbol = st.symbol <;>
      simp [matchStone, isConflict, hc, hs]

theorem any_notMatching_eq (s : Stone) (ts : List Tile) :
    ((ts.map (matchStone s)).any (fun m => m == MatchResult.notMatching)) = ts.any (isConflict s) := by
  induction ts with
  | nil => rfl
  | cons t ts ih => simp [matchStone_beq_notMatching, ih]

theorem length_filter_matchStone (s : Stone) (ts : List Tile) :
    ((ts.map (matchStone s)).filter isNonEmptyMatch).length = ts.countP (sharesAttribute s) := by
  induction ts with
  | nil => rfl
  | cons t ts ih =>
    simp only [List.map_cons, List.filter_cons, List.countP_cons, isNonEmptyMatch_matchStone]
    cases h : sharesAttribute s t <;> simp [ih]

theorem foldl_addMatch (l : List MatchResult) (a b : Nat) :
    l.foldl addMatch (a, b) = (a + (l.map mrColor).sum, b + (l.map mrSymbol).sum) := by
  induction l generalizing a b with
  | nil => simp
  | cons m l ih =>
    cases m with
    | notMatching => simp [addMatch, mrColor, mrSymbol, ih, Nat.add_assoc]
    | matchRes c s => simp [addMatch, mrColor, mrSymbol, ih, Nat.add_assoc]

theorem sumColor_filter_matchStone (s : Stone) (ts : List Tile) :
    (((ts.map (matchStone s)).filter isNonEmptyMatch).map mrColor).sum = ts.countP (sharesColor s) := by
  induction ts with
  | nil => rfl
  | cons t ts ih =>
    simp only [List.map_cons, List.filter_cons, List.countP_cons, isNonEmptyMatch_matchStone]
    cases t with
    | empty => simpa [sharesAttribute, sharesColor] using ih
    | stone st =>
      by_cases hc : s.color = st.color <;> by_cases hs : s.symbol = st.symbol <;>
        simp [matchStone, sharesAttribute, sharesColor, mrColor, hc, hs, ih] <;> omega

theorem sumSymbol_filter_matchStone (s : Stone) (ts : List Tile) :
    (((ts.map (matchStone s)).filter isNonEmptyMatch).map mrSymbol).sum = ts.countP (sharesSymbol s) := by
  induction ts with
  | nil => rfl
  | cons t ts ih =>
    simp only [List.map_cons, List.filter_cons, List.countP_cons, isNonEmptyMatch_matchStone]
    cases t with
    | empty => simpa [sharesAttribute, sharesSymbol] using ih
    | stone st =>
      by_cases hc : s.color = st.color <;> by_cases hs : s.symbol = st.symbol <;>
        simp [matchStone, sharesAttribute, sharesSymbol, mrSymbol, hc, hs, ih] <;> omega

theorem getMatchResults_eq_map (board : Board) (s : Stone) (p : Position2D)
    (hn : board.nextStone = some s) (he : board.tiles p.x p.y = Tile.empty) :
    getMatchResults board p = (neighborTiles board p).map (matchStone s) := by
  simp only [getMatchResults, hn, he, if_pos, neighborTiles, neighborPositions, List.map_append]
  split <;> split <;> split <;> split <;> rfl

theorem getMatchResults_eq_nil (board : Board) (s : Stone) (p : Position2D)
    (hn : board.nextStone = some s) (he : ¬ board.tiles p.x p.y = Tile.empty) :
    getMatchResults board p = [] := by
  simp [getMatchResults, hn, he]

theorem mem_allPositions (p : Position2D) :
    p ∈ allPositions ↔ p.x < BOARD_WIDTH ∧ p.y < BOARD_HEIGHT := by
  cases p with
  | mk x y =>
    simp only [allPositions, List.mem_flatMap, List.mem_map, List.mem_range]
    constructor
    · rintro ⟨a, ha, b, hb, h⟩
      cases h
      exact ⟨ha, hb⟩
    · rintro ⟨hx, hy⟩
      exact ⟨x, hx, y, hy, rfl⟩

theorem validAt_iff (board : Board) (s : Stone) (p : Position2D)
    (hn : board.nextStone = some s) :
    validAt board p = true ↔
      (board.tiles p.x p.y = Tile.empty ∧
       (∀ q ∈ neighborPositions p, isConflict s (board.tiles q.x q.y) = false) ∧
       1 ≤ specN board s p ∧
       specTable (specN board s p) (specC board s p) (specS board s p)) := by
  by_cases he : board.tiles p.x p.y = Tile.empty
  case neg =>
    have h0 := getMatchResults_eq_nil board s p hn he
    simp [validAt, h0, he]
  case pos =>
    have h0 := getMatchResults_eq_map board s p hn he
    have e3 : (((neighborTiles board p).map (matchStone s)).filter isNonEmptyMatch).foldl
        addMatch (0, 0)
        = ((neighborTiles board p).countP (sharesColor s),
           (neighborTiles board p).countP (sharesSymbol s)) := by
      rw [foldl_addMatch]
      simp [sumColor_filter_matchStone, sumSymbol_filter_matchStone]
    simp only [validAt, h0, any_notMatching_eq, length_filter_matchStone, e3, specN, specC,
      specS, he, true_and]
    by_cases hcf : (neighborTiles board p).any (isConflict s)
    case pos =>
      simp only [hcf, Bool.not_true, Bool.false_eq_true, if_false, false_iff]
      have hex : ∃ t ∈ neighborTiles board p, isConflict s t = true := by
        simpa [List.any_eq_true] using hcf
      obtain ⟨t, ht, hc⟩ := hex
      rw [neighborTiles, List.mem_map] at ht
      obtain ⟨q, hq, rfl⟩ := ht
      rintro ⟨hall, -⟩
      rw [hall q hq] at hc
      exact Bool.false_ne_true hc
    case neg =>
      have hallT : ∀ t ∈ neighborTiles board p, isConflict s t = false := by
        intro t ht
        rcases Bool.eq_false_or_eq_true (isConflict s t) with h | h
        · exact absurd (List.any_eq_true.mpr ⟨t, ht, h⟩) hcf
        · exact h
      have hall : ∀ q ∈ neighborPositions p, isConflict s (board.tiles q.x q.y) = false := by
        intro q hq
        exact hallT _ (by rw [neighborTiles]; exact List.mem_map_of_mem _ hq)
      have hcf' : (neighborTiles board p).any (isConflict s) = false :=
        Bool.eq_false_iff.mpr hcf
      simp only [hcf', Bool.not_false, if_true, hall, implies_true, true_and]
      generalize (neighborTiles board p).countP (sharesAttribute s) = n
      generalize (neighborTiles board p).countP (sharesColor s) = c
      generalize (neighborTiles board p).countP (sharesSymbol s) = sv
      by_cases h1 : 0 < n
      case neg =>
        have h0 : n = 0 := by omega
        subst h0
        simp [specTable]
      case pos =>
        rw [if_pos h1]
        split <;> simp_all [specTable]

theorem mem_getValidPositions (board : Board) (s : Stone)
    (hn : board.nextStone = some s) (p : Position2D) :
    p ∈ getValidPositions board ↔ specValidPlacement board s p := by
  simp only [getValidPositions, hn]
  rw [List.mem_filter, mem_allPositions, validAt_iff board s p hn, specValidPlacement]
  tauto

theorem length_filter_ne_of_nodup {α : Type} [DecidableEq α] (l : List α) (a : α)
    (hN : l.Nodup) (ha : a ∈ l) :
    (l.filter (fun v => v != a)).length + 1 = l.length := by
  induction l with
  | nil => cases ha
  | cons b l ih =>
    rcases List.nodup_cons.mp hN with ⟨hb, hl⟩
    by_cases hba : b = a
    · subst hba
      have hfe : l.filter (fun v => v != b) = l :=
        List.filter_eq_self.mpr (fun x hx => by
          simp only [bne_iff_ne, ne_eq]
          exact fun h => hb (h ▸ hx))
      simp [hfe]
    · have hmem : a ∈ l := by
        rcases List.mem_cons.mp ha with h | h
        · exact absurd h.symm hba
        · exact h
      have hbb : (b != a) = true := by simpa using hba
      simp only [List.filter_cons, hbb, if_pos, List.length_cons]
      rw [← ih hl hmem]

theorem getD_mem {α : Type} (l : List α) (i : Nat) (d : α) (h : i < l.length) :
    l.getD i d ∈ l := by
  rw [l.getD_eq_getElem d h]
  exact l.getElem_mem h

theorem generatePlacedStonesGo_spec (g : Nat → Nat) :
    ∀ (fuel k : Nat) (colors symbols : List Nat) (acc : List Stone),
      colors.Nodup → symbols.Nodup → colors.length = symbols.length →
      colors.length ≤ fuel →
      (∀ st ∈ acc, st.color ∉ colors) → (∀ st ∈ acc, st.symbol ∉ symbols) →
      (acc.map Stone.color).Nodup → (acc.map Stone.symbol).Nodup →
      (∀ st ∈ acc, st.color < 6 ∧ st.symbol < 6) →
      (∀ c ∈ colors, c < 6) → (∀ sm ∈ symbols, sm < 6) →
      (generatePlacedStonesGo g fuel k colors symbols acc).1.length = acc.length + colors.length ∧
      ((generatePlacedStonesGo g fuel k colors symbols acc).1.map Stone.color).Nodup ∧
      ((generatePlacedStonesGo g fuel k colors symbols acc).1.map Stone.symbol).Nodup ∧
      (∀ st ∈ (generatePlacedStonesGo g fuel k colors symbols acc).1,
        st.color < 6 ∧ st.symbol < 6) := by
  intro fuel
  induction fuel with
  | zero =>
    intro k colors symbols acc hcN hsN hlen hfuel h1 h2 h3 h4 h5 h6 h7
    have : colors = [] := List.eq_nil_of_length_eq_zero (by omega)
    subst this
    simpa [generatePlacedStonesGo] using ⟨h3, h4, h5⟩
  | succ fuel ih =>
    intro k colors symbols acc hcN hsN hlen hfuel h1 h2 h3 h4 h5 h6 h7
    match colors, hcN, hlen, hfuel, h1, h6 with
    | [], _, _, _, _, _ => simpa [generatePlacedStonesGo] using ⟨h3, h4, h5⟩
    | c :: cs, hcN, hlen, hfuel, h1, h6 =>
      rw [generatePlacedStonesGo]
      have hpos : 0 < (c :: cs).length := by simp
      have hi1 : randomInt g k (c :: cs).length < (c :: cs).length :=
        Nat.mod_lt _ hpos
      have hi2 : randomInt g (k + 1) (c :: cs).length < symbols.length := by
        rw [← hlen]
        exact Nat.mod_lt _ hpos
      set color := (c :: cs).getD (randomInt g k (c :: cs).length) 0 with hcolor
      set symbol := symbols.getD (randomInt g (k + 1) (c :: cs).length) 0 with hsymbol
      have hcmem : color ∈ c :: cs := getD_mem _ _ _ hi1
      have hsmem : symbol ∈ symbols := getD_mem _ _ _ hi2
      have hclen := length_filter_ne_of_nodup (c :: cs) color hcN hcmem
      have hslen := length_filter_ne_of_nodup symbols symbol hsN hsmem
      have hres := ih (k + 2) ((c :: cs).filter (fun v => v != color))
        (symbols.filter (fun v => v != symbol)) (acc ++ [⟨color, symbol⟩])
        (hcN.filter _) (hsN.filter _) (by omega) (by simp at hfuel ⊢; omega)
        (by
          intro st hst
          rcases List.mem_append.mp hst with h | h
          · exact fun hm => h1 st h (List.mem_of_mem_filter hm)
          · simp at h
            subst h
            simp only [List.mem_filter]
            rintro ⟨-, hne⟩
            simp at hne)
        (by
          intro st hst
          rcases List.mem_append.mp hst with h | h
          · exact fun hm => h2 st h (List.mem_of_mem_filter hm)
          · simp at h
            subst h
            simp only [List.mem_filter]
            rintro ⟨-, hne⟩
            simp at hne)
        (by
          simp only [List.map_append, List.map_cons, List.map_nil]
          rw [List.nodup_append]
          refine ⟨h3, List.nodup_singleton _, ?_⟩
          intro x hx hx1
          simp only [List.mem_singleton] at hx1
          subst hx1
          rcases List.mem_map.mp hx with ⟨st, hst, hc⟩
          exact h1 st hst (hc ▸ hcmem))
        (by
          simp only [List.map_append, List.map_cons, List.map_nil]
          rw [List.nodup_append]
          refine ⟨h4, List.nodup_singleton _, ?_⟩
          intro x hx hx1
          simp only [List.mem_singleton] at hx1
          subst hx1
          rcases List.mem_map.mp hx with ⟨st, hst, hc⟩
          exact h2 st hst (hc ▸ hsmem))
        (by
          intro st hst
          rcases List.mem_append.mp hst with h | h
          · exact h5 st h
          · simp at h
            subst h
            exact ⟨h6 color hcmem, h7 symbol hsmem⟩)
        (fun x hx => h6 x (List.mem_of_mem_filter hx))
        (fun x hx => h7 x (List.mem_of_mem_filter hx))
      refine ⟨?_, hres.2.1, hres.2.2.1, hres.2.2.2⟩
      have h9 := hres.1
      simp only [List.length_append, List.length_cons, List.length_nil] at h9 hclen hslen ⊢
      omega

theorem set_append_getD_perm {α : Type} (l : List α) :
    ∀ (i : Nat), i < l.length → ∀ (b d : α),
    ((l.set i b) ++ [l.getD i d]).Perm (l ++ [b]) := by
  induction l with
  | nil => intro i h; cases h
  | cons a t ih =>
    intro i h b d
    cases i with
    | zero =>
      simp only [List.set_cons_zero, List.getD_cons_zero, List.cons_append]
      have p1 : (b :: (t ++ [a])).Perm (b :: (a :: t)) :=
        (List.perm_append_singleton a t).cons b
      have p2 : (b :: a :: t).Perm (a :: b :: t) := List.Perm.swap a b t
      have p3 : (a :: b :: t).Perm (a :: (t ++ [b])) :=
        ((List.perm_append_singleton b t).symm).cons a
      exact (p1.trans p2).trans p3
    | succ i =>
      simp only [List.set_cons_succ, List.getD_cons_succ, List.cons_append]
      exact (ih i (by simpa using h) b d).cons a

theorem count_set_add (l : List Stone) (i : Nat) (h : i < l.length) (b d p : Stone) :
    (l.set i b).count p + (if l.getD i d = p then 1 else 0)
      = l.count p + (if b = p then 1 else 0) := by
  have hp := (set_append_getD_perm l i h b d).count_eq p
  simpa [List.count_append, List.count_singleton'] using hp

theorem count_swapList (l : List Stone) (i j : Nat)
    (hi : i < l.length) (hj : j < l.length) (p : Stone) :
    (swapList l i j).count p = l.count p := by
  have hlen : (l.set i (l.getD j ⟨0, 0⟩)).length = l.length := l.length_set i _
  have h1 := count_set_add l i hi (l.getD j ⟨0, 0⟩) ⟨0, 0⟩ p
  have h2 := count_set_add (l.set i (l.getD j ⟨0, 0⟩)) j (by rw [hlen]; exact hj)
    (l.getD i ⟨0, 0⟩) ⟨0, 0⟩ p
  have h3 : (l.set i (l.getD j ⟨0, 0⟩)).getD j ⟨0, 0⟩ = l.getD j ⟨0, 0⟩ := by
    by_cases hij : i = j
    · subst hij
      have hq : i < (l.set i (l.getD i ⟨0, 0⟩)).length := by rw [hlen]; exact hj
      rw [(l.set i (l.getD i ⟨0, 0⟩)).getD_eq_getElem ⟨0, 0⟩ hq, List.getElem_set_self hq]
    · have hq : j < (l.set i (l.getD j ⟨0, 0⟩)).length := by rw [hlen]; exact hj
      rw [(l.set i (l.getD j ⟨0, 0⟩)).getD_eq_getElem ⟨0, 0⟩ hq,
        List.getElem_set_ne hij hq]
      exact (l.getD_eq_getElem ⟨0, 0⟩ hj).symm
  rw [h3] at h2
  rw [swapList]
  split_ifs at h1 h2 <;> omega

theorem swapList_perm (l : List Stone) (i j : Nat)
    (hi : i < l.length) (hj : j < l.length) :
    (swapList l i j).Perm l :=
  List.perm_iff_count.mpr (fun p => count_swapList l i j hi hj p)

theorem shuffleGo_perm (g : Nat → Nat) :
    ∀ (i k : Nat) (l : List Stone), i < l.length → (shuffleGo g k i l).Perm l := by
  intro i
  induction i with
  | zero => intro k l _; exact List.Perm.refl l
  | succ i ih =>
    intro k l h
    rw [shuffleGo]
    have hj : randomInt g k (i + 1) < l.length :=
      lt_of_lt_of_le (Nat.mod_lt _ (Nat.succ_pos i)) (le_of_lt h)
    have hperm := swapList_perm l (i + 1) (randomInt g k (i + 1)) h hj
    have hlen : (swapList l (i + 1) (randomInt g k (i + 1))).length = l.length :=
      hperm.length_eq
    exact (ih (k + 1) _ (by rw [hlen]; omega)).trans hperm

theorem shuffle_perm (g : Nat → Nat) (k : Nat) (l : List Stone) :
    (shuffle g k l).Perm l := by
  rcases l with _ | ⟨a, t⟩
  · exact List.Perm.refl _
  · exact shuffleGo_perm g (a :: t).length.pred k (a :: t) (by simp)

theorem count_filter_ne (P : List Stone) (e p : Stone) :
    (P.filter (fun s => s != e)).count p = if p = e then 0 else P.count p := by
  by_cases hpe : p = e
  · subst hpe
    rw [if_pos rfl, List.count_eq_zero]
    intro hmem
    have := (List.mem_filter.mp hmem).2
    simp at this
  · rw [if_neg hpe]
    exact List.count_filter (by simpa using hpe)

theorem count_cons_ne (a b : Stone) (l : List Stone) (h : ¬ a = b) :
    (b :: l).count a = l.count a := by
  simp [List.count_cons, h]

theorem count_cons_self_add (a : Stone) (l : List Stone) :
    (a :: l).count a = l.count a + 1 := by
  simp

theorem buildStack_fold_spec :
    ∀ (E : List Stone) (P S : List Stone), P.Nodup →
      (E.foldl buildStackStep (P, S)).1.Nodup ∧
      (∀ p : Stone, (E.foldl buildStackStep (P, S)).2.count p + P.count p
         = S.count p + E.count p + (E.foldl buildStackStep (P, S)).1.count p) ∧
      ((E.foldl buildStackStep (P, S)).2.length + P.length
         = S.length + E.length + (E.foldl buildStackStep (P, S)).1.length) ∧
      ((∀ q : Stone, P.count q ≤ E.count q) → (E.foldl buildStackStep (P, S)).1 = []) := by
  intro E
  induction E with
  | nil =>
    intro P S hN
    refine ⟨hN, fun p => by simp, by simp, ?_⟩
    intro hle
    refine List.eq_nil_iff_forall_not_mem.mpr (fun a ha => ?_)
    have h0 : P.count a = 0 := Nat.le_zero.mp (by simpa using hle a)
    rw [List.count_eq_zero] at h0
    exact h0 ha
  | cons e E ih =>
    intro P S hN
    rw [List.foldl_cons]
    by_cases hmem : e ∈ P
    · have hflt := length_filter_ne_of_nodup P e hN hmem
      have hstep : buildStackStep (P, S) e = (P.filter (fun s => s != e), S) := by
        simp only [buildStackStep]
        rw [if_neg (by omega)]
      rw [hstep]
      have ihh := ih (P.filter (fun s => s != e)) S (hN.filter _)
      have hPe : P.count e = 1 := List.count_eq_one_of_mem hN hmem
      refine ⟨ihh.1, ?_, ?_, ?_⟩
      · intro p
        have hc := ihh.2.1 p
        rw [count_filter_ne] at hc
        by_cases hpe : p = e
        · rw [if_pos hpe] at hc
          have hcc : (e :: E).count p = E.count p + 1 := by
            rw [hpe]
            exact count_cons_self_add e E
          have hPp : P.count p = 1 := by rw [hpe]; exact hPe
          omega
        · rw [if_neg hpe] at hc
          have hcc : (e :: E).count p = E.count p := count_cons_ne p e E hpe
          omega
      · have hl := ihh.2.2.1
        simp only [List.length_cons]
        omega
      · intro hle
        apply ihh.2.2.2
        intro q
        rw [count_filter_ne]
        by_cases hqe : q = e
        · simp [hqe]
        · rw [if_neg hqe]
          have := hle q
          have hcc : (e :: E).count q = E.count q := count_cons_ne q e E hqe
          omega
    · have hfe : P.filter (fun s => s != e) = P :=
        List.filter_eq_self.mpr (fun x hx => by
          simp only [bne_iff_ne, ne_eq]
          exact fun h => hmem (h ▸ hx))
      have hstep : buildStackStep (P, S) e = (P, S ++ [e]) := by
        simp only [buildStackStep]
        rw [hfe, if_pos rfl]
      rw [hstep]
      have ihh := ih P (S ++ [e]) hN
      refine ⟨ihh.1, ?_, ?_, ?_⟩
      · intro p
        have hc := ihh.2.1 p
        rw [List.count_append] at hc
        by_cases hpe : p = e
        · have h1 : List.count p [e] = 1 := by rw [hpe]; simp
          have h2 : (e :: E).count p = E.count p + 1 := by
            rw [hpe]
            exact count_cons_self_add e E
          omega
        · have h1 : List.count p [e] = 0 := by
            rw [List.count_eq_zero]
            simpa using hpe
          have h2 : (e :: E).count p = E.count p := count_cons_ne p e E hpe
          omega
      · have hl := ihh.2.2.1
        simp only [List.length_append, List.length_cons, List.length_nil] at hl ⊢
        omega
      · intro hle
        apply ihh.2.2.2
        intro q
        by_cases hqe : q = e
        · have h0 : P.count q = 0 := by
            rw [List.count_eq_zero, hqe]
            exact hmem
          omega
        · have := hle q
          have hcc : (e :: E).count q = E.count q := count_cons_ne q e E hqe
          omega

theorem exists_six (l : List Stone) (h : l.length = 6) :
    ∃ a b c d e f, l = [a, b, c, d, e, f] := by
  rcases l with _ | ⟨a, l⟩
  · simp at h
  rcases l with _ | ⟨b, l⟩
  · simp at h
  rcases l with _ | ⟨c, l⟩
  · simp at h
  rcases l with _ | ⟨d, l⟩
  · simp at h
  rcases l with _ | ⟨e, l⟩
  · simp at h
  rcases l with _ | ⟨f, l⟩
  · simp at h
  rcases l with _ | ⟨g7, l⟩
  · exact ⟨a, b, c, d, e, f, rfl⟩
  · simp at h

theorem buildTiles_eval (s0 s1 s2 s3 s4 s5 : Stone) :
    ((buildTilesGo allPositions (fun _ _ => Tile.empty) [s0, s1, s2, s3, s4, s5]).1 0 0
        = Tile.stone s5) ∧
    ((buildTilesGo allPositions (fun _ _ => Tile.empty) [s0, s1, s2, s3, s4, s5]).1 0 7
        = Tile.stone s4) ∧
    ((buildTilesGo allPositions (fun _ _ => Tile.empty) [s0, s1, s2, s3, s4, s5]).1 5 3
        = Tile.stone s3) ∧
    ((buildTilesGo allPositions (fun _ _ => Tile.empty) [s0, s1, s2, s3, s4, s5]).1 6 4
        = Tile.stone s2) ∧
    ((buildTilesGo allPositions (fun _ _ => Tile.empty) [s0, s1, s2, s3, s4, s5]).1 11 0
        = Tile.stone s1) ∧
    ((buildTilesGo allPositions (fun _ _ => Tile.empty) [s0, s1, s2, s3, s4, s5]).1 11 7
        = Tile.stone s0) :=
  ⟨rfl, rfl, rfl, rfl, rfl, rfl⟩

theorem anchorCells_eval :
    allPositions.filter isInitialStonePosition
      = [⟨0, 0⟩, ⟨0, 7⟩, ⟨5, 3⟩, ⟨6, 4⟩, ⟨11, 0⟩, ⟨11, 7⟩] := by rfl

theorem deckEnum_count_two : ∀ c < 6, ∀ s < 6, deckEnum.count (⟨c, s⟩ : Stone) = 2 := by decide

theorem deckEnum_count_of_bounds (q : Stone) (hc : q.color < 6) (hs : q.symbol < 6) :
    deckEnum.count q = 2 :=
  deckEnum_count_two q.color hc q.symbol hs

theorem generatePlacedStones_props (g : Nat → Nat) (k : Nat) :
    (generatePlacedStones g k).1.length = 6 ∧
    ((generatePlacedStones g k).1.map Stone.color).Nodup ∧
    ((generatePlacedStones g k).1.map Stone.symbol).Nodup ∧
    (∀ st ∈ (generatePlacedStones g k).1, st.color < 6 ∧ st.symbol < 6) := by
  have h := generatePlacedStonesGo_spec g 6 k [0, 1, 2, 3, 4, 5] [0, 1, 2, 3, 4, 5] []
    (by decide) (by decide) rfl (by decide) (by simp) (by simp) (by simp) (by simp)
    (by simp) (by decide) (by decide)
  simpa [generatePlacedStones] using h

theorem stone_count_map_reverse (a0 a1 a2 a3 a4 a5 : Stone) (p : Stone) :
    ([Tile.stone a5, Tile.stone a4, Tile.stone a3, Tile.stone a2, Tile.stone a1,
      Tile.stone a0].count (Tile.stone p)) = [a0, a1, a2, a3, a4, a5].count p := by
  have hinj : Function.Injective Tile.stone := fun x y h => Tile.stone.inj h
  rw [show [Tile.stone a5, Tile.stone a4, Tile.stone a3, Tile.stone a2, Tile.stone a1,
        Tile.stone a0]
      = ([a0, a1, a2, a3, a4, a5].map Tile.stone).reverse from rfl]
  rw [List.count_reverse, List.count_map_of_injective _ _ hinj]

set_option maxRecDepth 16384 in
/-- C6: every run of `newGame` (over any random stream) deals each of the
36 (color, symbol) pairs exactly twice across the six anchor tiles, the
draw stack and the next stone; the stack holds 65 stones and a next stone
exists. -/
theorem newGame_deck_composition (g : Nat → Nat) (k : Nat) (assets : Assets) :
    (newGame g k assets).stoneStack.length = 65 ∧
    (newGame g k assets).board.nextStone.isSome = true ∧
    (∀ c < 6, ∀ s < 6,
      (anchorTiles (newGame g k assets)).count (Tile.stone ⟨c, s⟩)
        + (newGame g k assets).stoneStack.count ⟨c, s⟩
        + ((newGame g k assets).board.nextStone.toList).count ⟨c, s⟩ = 2) := by
  have hsS : (newGame g k assets).stoneStack
      = (shuffle g ((generatePlacedStones g k).2 + BOARD_WIDTH * BOARD_HEIGHT)
          (buildStack (generatePlacedStones g k).1)).dropLast := by simp only [newGame]
  have hsNx : (newGame g k assets).board.nextStone
      = (shuffle g ((generatePlacedStones g k).2 + BOARD_WIDTH * BOARD_HEIGHT)
          (buildStack (generatePlacedStones g k).1)).getLast? := by simp only [newGame]
  have htiles : (newGame g k assets).board.tiles
      = (buildTilesGo allPositions (fun _ _ => Tile.empty) (generatePlacedStones g k).1).1 := by
    simp only [newGame]
  obtain ⟨hP6, hcN, hsN, hbounds⟩ := generatePlacedStones_props g k
  set P := (generatePlacedStones g k).1 with hPdef
  set k2 := (generatePlacedStones g k).2 + BOARD_WIDTH * BOARD_HEIGHT with hk2
  set shuffled := shuffle g k2 (buildStack P) with hshuf
  have hPnodup : P.Nodup := hcN.of_map
  have hfold := buildStack_fold_spec deckEnum P [] hPnodup
  have hPle : ∀ q : Stone, P.count q ≤ deckEnum.count q := by
    intro q
    by_cases hq : q ∈ P
    · have h1 : P.count q = 1 := List.count_eq_one_of_mem hPnodup hq
      have h2 : deckEnum.count q = 2 :=
        deckEnum_count_of_bounds q (hbounds q hq).1 (hbounds q hq).2
      omega
    · have h1 : P.count q = 0 := List.count_eq_zero.mpr hq
      omega
  have hR1 : (deckEnum.foldl buildStackStep (P, [])).1 = [] := hfold.2.2.2 hPle
  have hstackcount : ∀ p : Stone, (buildStack P).count p + P.count p = deckEnum.count p := by
    intro p
    have hcp := hfold.2.1 p
    rw [hR1] at hcp
    simpa [buildStack] using hcp
  have hstacklen : (buildStack P).length = 66 := by
    have hlp := hfold.2.2.1
    rw [hR1] at hlp
    have hd : deckEnum.length = 72 := by rfl
    simp only [buildStack, List.length_nil] at hlp ⊢
    omega
  have hperm : shuffled.Perm (buildStack P) := shuffle_perm g k2 (buildStack P)
  have hslen : shuffled.length = 66 := by rw [hperm.length_eq, hstacklen]
  have hsne : shuffled ≠ [] := List.ne_nil_of_length_pos (by omega)
  have hsplit : shuffled.dropLast ++ [shuffled.getLast hsne] = shuffled :=
    List.dropLast_append_getLast hsne
  have hlast : shuffled.getLast? = some (shuffled.getLast hsne) :=
    List.getLast?_eq_getLast shuffled hsne
  refine ⟨?_, ?_, ?_⟩
  · rw [hsS, List.length_dropLast, hslen]
  · rw [hsNx, hlast]
    rfl
  · intro c hc s hs
    obtain ⟨a0, a1, a2, a3, a4, a5, hPeq⟩ := exists_six P hP6
    have hanch : anchorTiles (newGame g k assets)
        = [Tile.stone a5, Tile.stone a4, Tile.stone a3, Tile.stone a2, Tile.stone a1,
           Tile.stone a0] := by
      rw [anchorTiles, anchorCells_eval]
      rw [List.map_cons, List.map_cons, List.map_cons, List.map_cons, List.map_cons,
        List.map_cons, List.map_nil]
      rw [htiles, hPeq]
      obtain ⟨e1, e2, e3, e4, e5, e6⟩ := buildTiles_eval a0 a1 a2 a3 a4 a5
      rw [e1, e2, e3, e4, e5, e6]
    have hcountsplit : shuffled.dropLast.count (⟨c, s⟩ : Stone)
        + List.count (⟨c, s⟩ : Stone) [shuffled.getLast hsne]
        = (buildStack P).count ⟨c, s⟩ := by
      rw [← List.count_append, hsplit]
      exact hperm.count_eq _
    have htl : ((newGame g k assets).board.nextStone.toList).count (⟨c, s⟩ : Stone)
        = List.count (⟨c, s⟩ : Stone) [shuffled.getLast hsne] := by
      rw [hsNx, hlast]
      rfl
    rw [hanch, stone_count_map_reverse, hsS, htl, ← hPeq]
    have hdc : deckEnum.count (⟨c, s⟩ : Stone) = 2 := deckEnum_count_two c hc s hs
    have hsc := hstackcount ⟨c, s⟩
    omega

/-- C7: every run of the anchor generator (over any random stream) yields
exactly 6 stones with pairwise distinct colors and pairwise distinct
symbols, all drawn from the pools `[0,6)` — a bijection between a subset of
the colors and a subset of the symbols. -/
theorem generatePlacedStones_distinct (g : Nat → Nat) (k : Nat) :
    (generatePlacedStones g k).1.length = 6 ∧
    ((generatePlacedStones g k).1.map Stone.color).Nodup ∧
    ((generatePlacedStones g k).1.map Stone.symbol).Nodup ∧
    (∀ st ∈ (generatePlacedStones g k).1, st.color < 6 ∧ st.symbol < 6) :=
  generatePlacedStones_props g k

theorem validCache_newGame (g : Nat → Nat) (k : Nat) (assets : Assets) :
    (newGame g k assets).validPositions = getValidPositions (newGame g k assets).board := by
  simp only [newGame]

theorem validCache_setHint (game : Game) (b : Bool)
    (h : game.validPositions = getValidPositions game.board) :
    (setHint game b).validPositions = getValidPositions (setHint game b).board := by
  simpa [setHint] using h

theorem score_bump_validPositions (g1 : Game) (b : Bool) (n : Nat) :
    (if b then { g1 with score := g1.score + n } else g1).validPositions
      = g1.validPositions := by
  cases b <;> rfl

theorem score_bump_board (g1 : Game) (b : Bool) (n : Nat) :
    (if b then { g1 with score := g1.score + n } else g1).board = g1.board := by
  cases b <;> rfl

theorem validCache_doMove (g : Nat → Nat) (k : Nat) (game : Game) (p : Position2D)
    (h : game.validPositions = getValidPositions game.board) :
    (doMove g k game p).validPositions = getValidPositions (doMove g k game p).board := by
  simp only [doMove]
  by_cases hbtn : inRect game.assets.newButton p
  · simp only [hbtn, if_true]
    exact validCache_newGame g k game.assets
  · have hbtn' : inRect game.assets.newButton p = false := by simpa using hbtn
    simp only [hbtn', Bool.false_eq_true, if_false]
    rw [score_bump_validPositions, score_bump_board]
    rcases hn : game.board.nextStone with _ | ns
    · simp only [hn]
      exact h
    · simp only [hn]
      by_cases hv : (⟨p.x / TILE_WIDTH, p.y / TILE_HEIGHT⟩ : Position2D) ∈ game.validPositions
      · rw [if_pos hv]
      · rw [if_neg hv]
        exact h

/-- C8: in every reachable session state the cached `validPositions` equals
the valid-move finder applied to the current board (it is recomputed from
scratch by `newGame` and after every mutation in `doMove`). -/
theorem validPositions_cache_invariant (game : Game) (h : Reachable game) :
    game.validPositions = getValidPositions game.board := by
  induction h with
  | init g k assets => exact validCache_newGame g k assets
  | move g k gm p _ ih => exact validCache_doMove g k gm p ih
  | hint gm b _ ih => exact validCache_setHint gm b ih

/-- Witness for C8 at a concrete reachable state. -/
theorem validPositions_cache_invariant_witness :
    (newGame rng0 0 assets0).validPositions = getValidPositions (newGame rng0 0 assets0).board :=
  validPositions_cache_invariant (newGame rng0 0 assets0) (Reachable.init rng0 0 assets0)

/-- C9: the match evaluator sends an empty neighbor to the zero outcome
`Match(0,0)` (which `isNonEmptyMatch` excludes from the collected count),
an occupied neighbor sharing neither attribute to `NotMatching`, and an
occupied neighbor sharing an attribute to `Match` with the 0/1 indicator
flags, at least one of which is 1; a zero-valued `Match` never arises for
an occupied neighbor. -/
theorem matchStone_classification (s : Stone) (t : Tile) :
    (t = Tile.empty →
      matchStone s t = MatchResult.matchRes 0 0 ∧ isNonEmptyMatch (matchStone s t) = false) ∧
    (∀ st, t = Tile.stone st →
      (matchStone s t = MatchResult.notMatching ↔ st.color ≠ s.color ∧ st.symbol ≠ s.symbol)) ∧
    (∀ st, t = Tile.stone st → (st.color = s.color ∨ st.symbol = s.symbol) →
      matchStone s t = MatchResult.matchRes (if s.color = st.color then 1 else 0)
          (if s.symbol = st.symbol then 1 else 0) ∧
      isNonEmptyMatch (matchStone s t) = true) ∧
    (∀ st c sm, t = Tile.stone st → matchStone s t = MatchResult.matchRes c sm →
      1 ≤ c + sm ∧ c ≤ 1 ∧ sm ≤ 1) := by
  refine ⟨?_, ?_, ?_, ?_⟩
  · rintro rfl
    exact ⟨rfl, rfl⟩
  · rintro st rfl
    by_cases hc : s.color = st.color <;> by_cases hs : s.symbol = st.symbol <;>
      simp [matchStone, hc, hs] <;> tauto
  · rintro st rfl hshare
    by_cases hc : s.color = st.color <;> by_cases hs : s.symbol = st.symbol <;>
      simp [matchStone, isNonEmptyMatch, hc, hs] <;> tauto
  · rintro st c sm rfl hmr
    by_cases hc : s.color = st.color <;> by_cases hs : s.symbol = st.symbol <;>
      simp [matchStone, hc, hs] at hmr <;> omega

/-- Witness for C9 at concrete tiles: an empty neighbor and a
color-sharing occupied neighbor. -/
theorem matchStone_classification_witness :
    (matchStone ⟨0, 0⟩ Tile.empty = MatchResult.matchRes 0 0 ∧
      isNonEmptyMatch (matchStone ⟨0, 0⟩ Tile.empty) = false) ∧
    (matchStone ⟨0, 0⟩ (Tile.stone ⟨0, 1⟩) = MatchResult.matchRes 1 0 ∧
      isNonEmptyMatch (matchStone ⟨0, 0⟩ (Tile.stone ⟨0, 1⟩)) = true) :=
  ⟨(matchStone_classification ⟨0, 0⟩ Tile.empty).1 rfl,
   by
     have h := (matchStone_classification ⟨0, 0⟩ (Tile.stone ⟨0, 1⟩)).2.2.1 ⟨0, 1⟩ rfl
       (Or.inl rfl)
     simpa using h⟩

theorem doMove_accepted (g : Nat → Nat) (k : Nat) (game : Game) (p : Position2D) (ns : Stone)
    (hn : game.board.nextStone = some ns)
    (hv : (⟨p.x / TILE_WIDTH, p.y / TILE_HEIGHT⟩ : Position2D) ∈ game.validPositions)
    (hb : inRect game.assets.newButton p = false) :
    doMove g k game p =
      (let bp : Position2D := ⟨p.x / TILE_WIDTH, p.y / TILE_HEIGHT⟩
       let scored :=
         if !(isBeyond bp) then
           match ((getMatchResults game.board bp).filter isNonEmptyMatch).length with
           | 1 => (game.score + 1, game.fourWays)
           | 2 => (game.score + 2, game.fourWays)
           | 3 => (game.score + 4, game.fourWays)
           | 4 => (game.score + 8 + fourwayBonuses.getD game.fourWays 0, game.fourWays + 1)
           | _ => (game.score, game.fourWays)
         else (game.score, game.fourWays)
       let board' : Board :=
         { game.board with
           tiles := setTile game.board.tiles bp (Tile.stone ns),
           nextStone := game.stoneStack.getLast? }
       let game1 : Game :=
         { game with
           board := board',
           stoneStack := game.stoneStack.dropLast,
           score := scored.1,
           fourWays := scored.2,
           showHint := false,
           validPositions := getValidPositions board' }
       if isGameOver game1 then
         { game1 with score := game1.score + stonesLeftBonus.getD game1.stoneStack.length 0 }
       else game1) := by
  simp only [doMove, hn, hb, Bool.false_eq_true, if_false]
  rw [if_pos hv]
  simp only [Nat.add_sub_cancel]

theorem specTable_range (n c s : Nat) (h : specTable n c s) : 1 ≤ n ∧ n ≤ 4 := by
  unfold specTable at h
  split_ifs at h with h1 h2 h3 h4
  · omega
  · omega
  · omega
  · omega

theorem fourwayBonuses_getD_out (i : Nat) (h : 12 ≤ i) : fourwayBonuses.getD i 0 = 0 :=
  List.getD_eq_default _ _ (by simpa [fourwayBonuses] using h)

theorem gameOver_ite_id (g1 : Game) (hnn : g1.board.nextStone.isSome = true)
    (hl : g1.stoneStack.length ≠ 0) :
    (if isGameOver g1 then
      { g1 with score := g1.score + stonesLeftBonus.getD g1.stoneStack.length 0 }
    else g1) = g1 := by
  rw [if_neg]
  intro hgo
  rw [isGameOver, Bool.or_eq_true] at hgo
  rcases hgo with hgo | hgo
  · rw [Option.isNone_iff_eq_none] at hgo
    rw [hgo] at hnn
    simp at hnn
  · rw [Nat.beq_eq_true_eq] at hgo
    exact hl hgo

/-- C5: an accepted placement with `n` collected non-empty matches scores
`1, 2, 4, 8` for `n = 1..4` on an interior cell and nothing on a border
cell; an interior four-way additionally increments the four-way counter and
adds the bonus-table entry at the new 1-indexed counter value while that
index stays within the 12-entry table. -/
theorem doMove_scoring_correct (g : Nat → Nat) (k : Nat) (game : Game) (p : Position2D)
    (hcache : game.validPositions = getValidPositions game.board)
    (hv : (⟨p.x / TILE_WIDTH, p.y / TILE_HEIGHT⟩ : Position2D) ∈ game.validPositions)
    (hb : inRect game.assets.newButton p = false)
    (hstack : 2 ≤ game.stoneStack.length) :
    1 ≤ ((getMatchResults game.board ⟨p.x / TILE_WIDTH, p.y / TILE_HEIGHT⟩).filter
        isNonEmptyMatch).length ∧
    ((getMatchResults game.board ⟨p.x / TILE_WIDTH, p.y / TILE_HEIGHT⟩).filter
        isNonEmptyMatch).length ≤ 4 ∧
    (isBeyond ⟨p.x / TILE_WIDTH, p.y / TILE_HEIGHT⟩ = false →
      (doMove g k game p).score
        = game.score
          + specBaseScore ((getMatchResults game.board
              ⟨p.x / TILE_WIDTH, p.y / TILE_HEIGHT⟩).filter isNonEmptyMatch).length
          + (if ((getMatchResults game.board
                ⟨p.x / TILE_WIDTH, p.y / TILE_HEIGHT⟩).filter isNonEmptyMatch).length = 4
                ∧ game.fourWays + 1 ≤ 12
             then fourwayBonuses.getD (game.fourWays + 1 - 1) 0 else 0) ∧
      (doMove g k game p).fourWays
        = game.fourWays
          + (if ((getMatchResults game.board
              ⟨p.x / TILE_WIDTH, p.y / TILE_HEIGHT⟩).filter isNonEmptyMatch).length = 4
             then 1 else 0)) ∧
    (isBeyond ⟨p.x / TILE_WIDTH, p.y / TILE_HEIGHT⟩ = true →
      (doMove g k game p).score = game.score ∧
      (doMove g k game p).fourWays = game.fourWays) := by
  rcases hno : game.board.nextStone with _ | ns
  · rw [hcache] at hv
    simp [getValidPositions, hno] at hv
  have hv' : (⟨p.x / TILE_WIDTH, p.y / TILE_HEIGHT⟩ : Position2D)
      ∈ getValidPositions game.board := hcache ▸ hv
  have hsv := (mem_getValidPositions game.board ns hno _).mp hv'
  have hempty := hsv.2.2.1
  have hneq : ((getMatchResults game.board ⟨p.x / TILE_WIDTH, p.y / TILE_HEIGHT⟩).filter
      isNonEmptyMatch).length
      = specN game.board ns ⟨p.x / TILE_WIDTH, p.y / TILE_HEIGHT⟩ := by
    rw [getMatchResults_eq_map game.board ns _ hno hempty, length_filter_matchStone]
    rfl
  have hrange := specTable_range _ _ _ hsv.2.2.2.2.2
  have hge1 := hsv.2.2.2.2.1
  have hm1 : 1 ≤ ((getMatchResults game.board
      ⟨p.x / TILE_WIDTH, p.y / TILE_HEIGHT⟩).filter isNonEmptyMatch).length := by
    rw [hneq]
    exact hge1
  have hm4 : ((getMatchResults game.board
      ⟨p.x / TILE_WIDTH, p.y / TILE_HEIGHT⟩).filter isNonEmptyMatch).length ≤ 4 := by
    rw [hneq]
    exact hrange.2
  have hne2 : game.stoneStack ≠ [] := by
    intro h0
    rw [h0] at hstack
    simp at hstack
  refine ⟨hm1, hm4, ?_, ?_⟩
  · intro hbey
    simp only [doMove, hno, hb, Bool.false_eq_true, if_false]
    rw [if_pos hv]
    rw [gameOver_ite_id]
    · simp only [hbey, Bool.not_false, if_true, Nat.add_sub_cancel]
      generalize hm : ((getMatchResults game.board
        ⟨p.x / TILE_WIDTH, p.y / TILE_HEIGHT⟩).filter isNonEmptyMatch).length = m
      rw [hm] at hm1 hm4
      interval_cases m
      · simp [specBaseScore]
      · simp [specBaseScore]
      · simp [specBaseScore]
      · constructor
        · simp only [specBaseScore]
          by_cases hfw : game.fourWays + 1 ≤ 12
          · simp [hfw]
          · rw [if_neg (by simp [hfw])]
            rw [fourwayBonuses_getD_out game.fourWays (by omega)]
        · simp
    · simp [List.getLast?_eq_getLast _ hne2]
    · simp only [List.length_dropLast]
      omega
  · intro hbey
    simp only [doMove, hno, hb, Bool.false_eq_true, if_false]
    rw [if_pos hv]
    rw [gameOver_ite_id]
    · simp [hbey]
    · simp [List.getLast?_eq_getLast _ hne2]
    · simp only [List.length_dropLast]
      omega

theorem gameOver_ite_fourWays (g1 : Game) :
    (if isGameOver g1 then
      { g1 with score := g1.score + stonesLeftBonus.getD g1.stoneStack.length 0 }
    else g1).fourWays = g1.fourWays := by
  split <;> rfl

theorem neighborPositions_length_border (p : Position2D) (hx : p.x < BOARD_WIDTH)
    (hy : p.y < BOARD_HEIGHT) (hbd : isBeyond p = true) :
    (neighborPositions p).length ≤ 3 := by
  have hlen : (neighborPositions p).length
      = (if 0 < p.x then 1 else 0) + (if p.x < 11 then 1 else 0)
        + (if 0 < p.y then 1 else 0) + (if p.y < 7 then 1 else 0) := by
    simp [neighborPositions, BOARD_WIDTH, BOARD_HEIGHT, apply_ite List.length]
    split_ifs <;> omega
  simp only [isBeyond, BOARD_WIDTH, BOARD_HEIGHT, Bool.or_eq_true, beq_iff_eq] at hbd
  simp only [BOARD_WIDTH, BOARD_HEIGHT] at hx hy
  rw [hlen]
  rcases hbd with ((h | h) | h) | h <;> split_ifs <;> omega

/-- C10: an accepted border placement leaves the four-way counter
unchanged (the whole scoring branch is skipped), and on a border cell the
collected non-empty match count can never reach 4 (at most 3 orthogonal
neighbors exist). -/
theorem border_skips_fourWays (g : Nat → Nat) (k : Nat) (game : Game) (p : Position2D)
    (hcache : game.validPositions = getValidPositions game.board)
    (hv : (⟨p.x / TILE_WIDTH, p.y / TILE_HEIGHT⟩ : Position2D) ∈ game.validPositions)
    (hb : inRect game.assets.newButton p = false)
    (hbey : isBeyond ⟨p.x / TILE_WIDTH, p.y / TILE_HEIGHT⟩ = true) :
    (doMove g k game p).fourWays = game.fourWays ∧
    ((getMatchResults game.board ⟨p.x / TILE_WIDTH, p.y / TILE_HEIGHT⟩).filter
        isNonEmptyMatch).length ≤ 3 := by
  rcases hno : game.board.nextStone with _ | ns
  · rw [hcache] at hv
    simp [getValidPositions, hno] at hv
  have hv' : (⟨p.x / TILE_WIDTH, p.y / TILE_HEIGHT⟩ : Position2D)
      ∈ getValidPositions game.board := hcache ▸ hv
  have hsv := (mem_getValidPositions game.board ns hno _).mp hv'
  have hempty := hsv.2.2.1
  constructor
  · simp only [doMove, hno, hb, Bool.false_eq_true, if_false]
    rw [if_pos hv]
    rw [gameOver_ite_fourWays]
    simp [hbey]
  · have hneq : ((getMatchResults game.board
        ⟨p.x / TILE_WIDTH, p.y / TILE_HEIGHT⟩).filter isNonEmptyMatch).length
        = specN game.board ns ⟨p.x / TILE_WIDTH, p.y / TILE_HEIGHT⟩ := by
      rw [getMatchResults_eq_map game.board ns _ hno hempty, length_filter_matchStone]
      rfl
    rw [hneq, specN]
    have hc := List.countP_le_length
      (p := sharesAttribute ns)
      (l := neighborTiles game.board ⟨p.x / TILE_WIDTH, p.y / TILE_HEIGHT⟩)
    have hlen : (neighborTiles game.board ⟨p.x / TILE_WIDTH, p.y / TILE_HEIGHT⟩).length
        = (neighborPositions ⟨p.x / TILE_WIDTH, p.y / TILE_HEIGHT⟩).length := by
      rw [neighborTiles, List.length_map]
    have hnb := neighborPositions_length_border _ hsv.1 hsv.2.1 hbey
    omega

/-- C1: for a board with a next stone, `getValidPositions` returns exactly
the empty in-grid cells whose occupied orthogonal neighbors contain no
conflict, with at least one attribute-sharing occupied neighbor, and whose
aggregate `(n, C, S)` satisfy the validity table; with no next stone the
result is empty. -/
theorem getValidPositions_correct (board : Board) :
    (∀ s, board.nextStone = some s →
      ∀ p, p ∈ getValidPositions board ↔ specValidPlacement board s p) ∧
    (board.nextStone = none → getValidPositions board = []) := by
  constructor
  · intro s hn p
    exact mem_getValidPositions board s hn p
  · intro hn
    simp [getValidPositions, hn]

/-- Witness for C1 on a concrete board: the cell below the lone stone is a
valid position and the equivalence holds there. -/
theorem getValidPositions_correct_witness :
    ((⟨5, 3⟩ : Position2D) ∈ getValidPositions demoBoard ↔
      specValidPlacement demoBoard ⟨0, 1⟩ ⟨5, 3⟩) ∧
    (⟨5, 3⟩ : Position2D) ∈ getValidPositions demoBoard :=
  ⟨(getValidPositions_correct demoBoard).1 ⟨0, 1⟩ rfl ⟨5, 3⟩, by decide⟩

/-- C2 is violated by the code: once the stack is empty the end-of-game
branch fires on **every** click, even though a next stone still exists and
even repeatedly — here two clicks on an invalid cell add the 1000 bonus
twice while the next stone is still present. -/
theorem endBonus_bug :
    emptyStackGame.board.nextStone.isSome = true ∧
    emptyStackGame.stoneStack = [] ∧
    ¬ (⟨0, 0⟩ : Position2D) ∈ emptyStackGame.validPositions ∧
    (doMove rng0 0 emptyStackGame ⟨0, 0⟩).score = emptyStackGame.score + 1000 ∧
    (doMove rng0 0 (doMove rng0 0 emptyStackGame ⟨0, 0⟩) ⟨0, 0⟩).score
      = emptyStackGame.score + 2000 := by
  decide

/-- C3 is violated by the code: a request with no next stone is not a
no-op — the game-over branch still runs and adds the 1000 end bonus to the
score on every such click. -/
theorem invalidMove_changes_state_bug :
    exhaustedGame.board.nextStone = none ∧
    exhaustedGame.validPositions = [] ∧
    exhaustedGame.score = 7 ∧
    (doMove rng0 0 exhaustedGame ⟨0, 0⟩).score = 1007 := by
  decide

/-- C4 is violated by the code: after the placement that empties the stack,
the game-over condition (line 477) is already true — the session shows
"Game over" and pays the end bonus while a next stone still exists and the
game still accepts further placements. -/
theorem gameOver_with_nextStone_bug :
    (doMove rng0 0 lastDrawGame ⟨280, 198⟩).board.nextStone = some ⟨3, 3⟩ ∧
    isGameOver (doMove rng0 0 lastDrawGame ⟨280, 198⟩) = true ∧
    (doMove rng0 0 lastDrawGame ⟨280, 198⟩).score = 1001 := by
  decide

/-- Witness for C5: the concrete interior placement at (5,3) of `demoGame`
(one color-sharing neighbor, so `n = 1`). -/
theorem doMove_scoring_correct_witness :
    1 ≤ ((getMatchResults demoGame.board ⟨5, 3⟩).filter isNonEmptyMatch).length ∧
    ((getMatchResults demoGame.board ⟨5, 3⟩).filter isNonEmptyMatch).length ≤ 4 ∧
    (isBeyond (⟨5, 3⟩ : Position2D) = false →
      (doMove rng0 0 demoGame ⟨280, 198⟩).score
        = demoGame.score
          + specBaseScore ((getMatchResults demoGame.board ⟨5, 3⟩).filter
              isNonEmptyMatch).length
          + (if ((getMatchResults demoGame.board ⟨5, 3⟩).filter isNonEmptyMatch).length = 4
                ∧ demoGame.fourWays + 1 ≤ 12
             then fourwayBonuses.getD (demoGame.fourWays + 1 - 1) 0 else 0) ∧
      (doMove rng0 0 demoGame ⟨280, 198⟩).fourWays
        = demoGame.fourWays
          + (if ((getMatchResults demoGame.board ⟨5, 3⟩).filter isNonEmptyMatch).length = 4
             then 1 else 0)) ∧
    (isBeyond (⟨5, 3⟩ : Position2D) = true →
      (doMove rng0 0 demoGame ⟨280, 198⟩).score = demoGame.score ∧
      (doMove rng0 0 demoGame ⟨280, 198⟩).fourWays = demoGame.fourWays) :=
  doMove_scoring_correct rng0 0 demoGame ⟨280, 198⟩ rfl (by decide) (by decide) (by decide)

/-- Witness for C6 at a concrete random stream and the pair (0,0). -/
theorem newGame_deck_composition_witness :
    (newGame rng0 0 assets0).stoneStack.length = 65 ∧
    (newGame rng0 0 assets0).board.nextStone.isSome = true ∧
    (anchorTiles (newGame rng0 0 assets0)).count (Tile.stone ⟨0, 0⟩)
      + (newGame rng0 0 assets0).stoneStack.count ⟨0, 0⟩
      + ((newGame rng0 0 assets0).board.nextStone.toList).count ⟨0, 0⟩ = 2 := by
  obtain ⟨h1, h2, h3⟩ := newGame_deck_composition rng0 0 assets0
  exact ⟨h1, h2, h3 0 (by decide) 0 (by decide)⟩

/-- Witness for C10: the concrete border placement at (0,0) of
`borderGame`. -/
theorem border_skips_fourWays_witness :
    (doMove rng0 0 borderGame ⟨0, 0⟩).fourWays = borderGame.fourWays ∧
    ((getMatchResults borderGame.board ⟨0, 0⟩).filter isNonEmptyMatch).length ≤ 3 :=
  border_skips_fourWays rng0 0 borderGame ⟨0, 0⟩ rfl (by decide) (by decide) (by decide)
